import Mathlib

/-!
Verification development for the OTP-relay bot (`bot.py`).

The definitions below are a shallow embedding of the core functions of
`bot.py`: the digit normalizer, the value flattener, the message extractor,
the OTP extractor, the pretty-number formatter, the per-record allocation
matcher and state evaluation inside `polling_job_for_alloc`, the poll loop
over dates, status filters and pages, the allocation constructor, and the
restart scheduling filter.  Provider payloads are modelled by the `JVal`
tree (JSON without floats, which never occur in the modelled behaviour).
Side effects (state persistence, message sends, job removal) are modelled
as an emitted trace of actions, parameterized by an oracle that says which
sends raise.  Network fetches are modelled as a function returning
`Option JVal`, `none` standing for a raised exception.
-/

set_option maxHeartbeats 1000000
set_option maxRecDepth 4000

namespace Bot

/-! ## Character and string utilities -/

/-- Whitespace characters of Python `str.strip` and of the regex class
backslash-s, restricted to ASCII: space, tab, newline, carriage return,
vertical tab (11) and form feed (12). -/
def isPySpace (c : Char) : Bool :=
  c == ' ' || c == '\t' || c == '\n' || c == '\r' || c == Char.ofNat 11 || c == Char.ofNat 12

/-- Word characters of the regex class backslash-w, restricted to ASCII:
letters, digits and underscore. -/
def isWordChar (c : Char) : Bool :=
  c.isAlphanum || c == '_'

/-- Python `str.lower`, restricted to ASCII. -/
def toLowerStr (s : String) : String :=
  String.mk (s.toList.map Char.toLower)

/-- Boolean prefix test on character lists. -/
def isPrefB : List Char → List Char → Bool
  | [], _ => true
  | _ :: _, [] => false
  | a :: as, b :: bs => a == b && isPrefB as bs

/-- Boolean contiguous-substring test on character lists; models the Python
`in` operator on strings. -/
def isSubB : List Char → List Char → Bool
  | n, [] => isPrefB n []
  | n, c :: t => isPrefB n (c :: t) || isSubB n t

/-- Python `needle in hay` on strings. -/
def substrB (needle hay : String) : Bool :=
  isSubB needle.toList hay.toList

/-- Python `sep.join(parts)`. -/
def joinWith (sep : String) : List String → String
  | [] => ""
  | [g] => g
  | g :: rest => g ++ sep ++ joinWith sep rest

/-- Python `str.strip()` with its default whitespace set. -/
def pyStrip (s : String) : String :=
  let l := s.toList.dropWhile isPySpace
  String.mk ((l.reverse.dropWhile isPySpace).reverse)

/-- Truthiness of an optional string, as Python `if x:` on `Optional[str]`. -/
def optTruthy : Option String → Bool
  | none => false
  | some s => !(s == "")

/-- Falsiness of an optional string, as Python `if not x:`. -/
def otpFalsy : Option String → Bool
  | none => true
  | some s => s == ""

/-! ## Provider payload values

`JVal` models the JSON-shaped values the provider returns.  `JList` and
`JObj` are its list and object spines, mutually inductive so that all
recursions below are structural.  Floats are not modelled; they do not
occur in any behaviour the claims mention. -/

mutual
inductive JVal where
  | null : JVal
  | bool : Bool → JVal
  | num : Int → JVal
  | str : String → JVal
  | arr : JList → JVal
  | obj : JObj → JVal
inductive JList where
  | nil : JList
  | cons : JVal → JList → JList
inductive JObj where
  | nil : JObj
  | cons : String → JVal → JObj → JObj
end

/-- Python truthiness of a `JVal`. -/
def truthy : JVal → Bool
  | .null => false
  | .bool b => b
  | .num n => !(n == 0)
  | .str s => !(s == "")
  | .arr .nil => false
  | .arr (.cons _ _) => true
  | .obj .nil => false
  | .obj (.cons _ _ _) => true

/-- Lookup of a key in an object spine (first occurrence). -/
def jobjFind : JObj → String → Option JVal
  | .nil, _ => none
  | .cons k v rest, key => if k == key then some v else jobjFind rest key

/-- Python `entry.get(k)`: `None` when the key is missing or the value is not
an object.  (On a non-dict, Python would raise `AttributeError` and the poll
pass would abort with no state change; that raising path is not modelled and
is out of scope of the claims.) -/
def pyGet (v : JVal) (key : String) : JVal :=
  match v with
  | .obj kvs =>
      match jobjFind kvs key with
      | some x => x
      | none => .null
  | _ => .null

/-- Python `a or b` on payload values. -/
def pyOr (a b : JVal) : JVal :=
  if truthy a then a else b

/-- Single quote character, kept out of string literals. -/
def sq : String := String.mk [Char.ofNat 39]

/-- Left and right curly brace strings, kept out of string literals. -/
def lbr : String := String.mk [Char.ofNat 123]

def rbr : String := String.mk [Char.ofNat 125]

mutual
/-- Python `str(x)`.  Containers render through `pyRepr`; the escaping that
`repr` applies to exotic characters inside strings is not modelled. -/
def pyStr : JVal → String
  | .null => "None"
  | .bool b => if b then "True" else "False"
  | .num n => toString n
  | .str s => s
  | .arr xs => "[" ++ joinWith ", " (reprArr xs) ++ "]"
  | .obj kvs => lbr ++ joinWith ", " (reprObj kvs) ++ rbr
/-- Python `repr(x)` as used when a container is stringified. -/
def pyRepr : JVal → String
  | .null => "None"
  | .bool b => if b then "True" else "False"
  | .num n => toString n
  | .str s => sq ++ s ++ sq
  | .arr xs => "[" ++ joinWith ", " (reprArr xs) ++ "]"
  | .obj kvs => lbr ++ joinWith ", " (reprObj kvs) ++ rbr
def reprArr : JList → List String
  | .nil => []
  | .cons v rest => pyRepr v :: reprArr rest
def reprObj : JObj → List String
  | .nil => []
  | .cons k v rest => (sq ++ k ++ sq ++ ": " ++ pyRepr v) :: reprObj rest
end

/-! ## Digit normalizer (`digits_only`) -/

/-- Filter a string down to its decimal digits. -/
def filterDigits (s : String) : String :=
  String.mk (s.toList.filter Char.isDigit)

/-- `digits_only` on a string argument: `re.sub(r"\D", "", s)` with the early
return for falsy input (which is value-equal to plain filtering for strings). -/
def digits_only (s : String) : String :=
  if s == "" then "" else filterDigits s

/-- `digits_only` on an arbitrary payload value: `if not s: return ""` then
`re.sub(r"\D", "", str(s))`. -/
def digits_onlyJ (v : JVal) : String :=
  if truthy v then filterDigits (pyStr v) else ""

/-! ## Value flattener (`flatten_values`) -/

mutual
/-- `flatten_values`: objects flatten their values and join the non-empty
parts with single spaces (keys are discarded), lists join all parts with
single spaces, scalars are stringified. -/
def flatten_values : JVal → String
  | .obj kvs => joinWith " " ((flatObj kvs).filter (fun p => !(p == "")))
  | .arr xs => joinWith " " (flatArr xs)
  | .null => "None"
  | .bool b => if b then "True" else "False"
  | .num n => toString n
  | .str s => s
def flatObj : JObj → List String
  | .nil => []
  | .cons _ v rest => flatten_values v :: flatObj rest
def flatArr : JList → List String
  | .nil => []
  | .cons v rest => flatten_values v :: flatArr rest
end

/-! ## Message extractor (`extract_message_text`) -/

/-- Priority list of top-level field names probed first. -/
def msgProbeKeys : List String :=
  ["message", "sms", "msg", "text", "body", "sms_text", "content", "raw"]

/-- Key names recognized by the nested deep search (lower-cased comparison). -/
def deepKeys : List String :=
  ["message", "sms", "msg", "text", "body", "content", "description"]

/-- Probe the entry for the first truthy value under the given keys. -/
def probeKeys (e : JVal) : List String → Option JVal
  | [] => none
  | k :: ks => if truthy (pyGet e k) then some (pyGet e k) else probeKeys e ks

/-- Python `isinstance(v, (str, int, float))`; `bool` is a subtype of `int`. -/
def isScalarSIF : JVal → Bool
  | .str _ => true
  | .num _ => true
  | .bool _ => true
  | _ => false

mutual
/-- The deep-search fallback of `extract_message_text`: depth-first over
objects and lists, returning the stringified first scalar stored under a
recognized key, or the empty string. -/
def searchMsg : JVal → String
  | .obj kvs => searchObj kvs
  | .arr xs => searchArr xs
  | _ => ""
def searchObj : JObj → String
  | .nil => ""
  | .cons k v rest =>
      if isScalarSIF v && deepKeys.contains (toLowerStr k) then pyStr v
      else
        let r := searchMsg v
        if !(r == "") then r else searchObj rest
def searchArr : JList → String
  | .nil => ""
  | .cons v rest =>
      let r := searchMsg v
      if !(r == "") then r else searchArr rest
end

/-- `extract_message_text`: probe the priority keys, then deep-search, then
fall back to flattening the whole entry. -/
def extract_message_text (entry : JVal) : String :=
  match probeKeys entry msgProbeKeys with
  | some v => flatten_values v
  | none =>
      let nested := searchMsg entry
      if !(nested == "") then nested else flatten_values entry

/-! ## OTP extractor (`extract_otp_from_text`) -/

/-- `re.sub(r"[|:]+", " ", text)`: each maximal run of pipe and colon
characters becomes a single space.  The boolean argument records whether the
previous character belonged to such a run. -/
def normSepAux : Bool → List Char → List Char
  | _, [] => []
  | prevSep, c :: cs =>
      if c == '|' || c == ':' then
        if prevSep then normSepAux true cs else ' ' :: normSepAux true cs
      else c :: normSepAux false cs

/-- Normalized character list of the input text. -/
def normChars (text : String) : List Char :=
  normSepAux false text.toList

/-- Length of the maximal digit run at the head of the list. -/
def digitRunLen : List Char → Nat
  | [] => 0
  | c :: cs => if c.isDigit then digitRunLen cs + 1 else 0

/-- A word boundary holds to the left of a position whose previous character
is absent or not a word character. -/
def leftBoundary : Option Char → Bool
  | none => true
  | some p => !isWordChar p

/-- A word boundary holds to the right of a digit run when the list goes on
with a non-word character or ends. -/
def rightBoundary : List Char → Bool
  | [] => true
  | d :: _ => !isWordChar d

/-- Search for the bare-code regex, backslash-b, 4 to 8 digits, backslash-b
(leftmost match): a maximal digit
run of length 4 to 8 whose left neighbour (tracked in `prev`) and right
neighbour are not word characters. -/
def rule2Search : Option Char → List Char → Option String
  | _, [] => none
  | prev, c :: cs =>
      if c.isDigit && leftBoundary prev then
        if 4 ≤ digitRunLen (c :: cs) && digitRunLen (c :: cs) ≤ 8 &&
            rightBoundary ((c :: cs).drop (digitRunLen (c :: cs))) then
          some (String.mk ((c :: cs).take (digitRunLen (c :: cs))))
        else rule2Search (some c) cs
      else rule2Search (some c) cs

/-- Characters of the regex class for sender markers. -/
def isMarker (c : Char) : Bool :=
  c == '<' || c == '#' || c == '>'

/-- Length of the maximal marker run at the head of the list. -/
def markerRunLen : List Char → Nat
  | [] => 0
  | c :: cs => if isMarker c then markerRunLen cs + 1 else 0

/-- Backtracking over the marker-count of the sender-marker regex — one to
three marker characters, optional whitespace, then 4 to 8 digits — at a
fixed start position: try `j` markers, then maximal whitespace, then a digit
run of at least 4, capturing greedily at most 8 digits. -/
def rule4Try (l : List Char) : Nat → Option String
  | 0 => none
  | j + 1 =>
      let rest := (l.drop (j + 1)).dropWhile isPySpace
      let r := digitRunLen rest
      if 4 ≤ r then some (String.mk (rest.take (min r 8)))
      else rule4Try l j

/-- Search for the sender-marker regex — one to three marker characters,
optional whitespace, then 4 to 8 digits (leftmost match). -/
def rule4Search : List Char → Option String
  | [] => none
  | c :: cs =>
      if isMarker c then
        match rule4Try (c :: cs) (min 3 (markerRunLen (c :: cs))) with
        | some s => some s
        | none => rule4Search cs
      else rule4Search cs

/-- `extract_otp_from_text`: falsy input yields `None`; otherwise normalize
the separators, try the bare word-bounded digit run, then the marker-prefixed
digit run. -/
def extract_otp_from_text (text : String) : Option String :=
  if text == "" then none
  else
    match rule2Search none (normChars text) with
    | some g => some g
    | none => rule4Search (normChars text)

/-! ## Pretty-number formatter (`format_pretty_number`) -/

/-- The grouping while-loop of `format_pretty_number`, fuelled by the digit
count: repeatedly move the last three digits to the front of the
accumulated group list. -/
def groupLoop : Nat → List Char → List String → List String
  | 0, _, gs => gs
  | fuel + 1, d, gs =>
      if d.isEmpty then gs
      else groupLoop fuel (d.take (d.length - 3)) (String.mk (d.drop (d.length - 3)) :: gs)

/-- `format_pretty_number`: keep one leading plus after stripping, then join
the digit groups of three (built from the right) with single spaces. -/
def format_pretty_number (number : String) : String :=
  if number == "" then ""
  else
    let s := pyStrip number
    let hasPlus := s.toList.head? == some '+'
    let plus := if hasPlus then "+" else ""
    let s1 := if hasPlus then String.mk s.toList.tail else s
    let d := digits_only s1
    plus ++ joinWith " " (groupLoop d.toList.length d.toList [])

/-! ## Allocations -/

/-- One allocation entry as stored in `state[chat_id]["allocations"]`. -/
structure Alloc where
  id : String
  range : String
  number : String
  digits : String
  country : String
  allocated_at : Int
  status : String
  otp : Option String
deriving DecidableEq

/-- `add_allocation`: builds the persisted entry.  The id is derived from the
millisecond clock and the current allocation count, both passed in here. -/
def add_allocation (now_ms : Int) (nAllocs : Nat) (rng : String) (full_number : JVal)
    (country : String) (now_s : Int) : Alloc :=
  { id := toString now_ms ++ "_" ++ toString nAllocs
    range := rng
    number := pyStr full_number
    digits := digits_onlyJ full_number
    country := country
    allocated_at := now_s
    status := "pending"
    otp := none }

/-- The number field the allocation flow reads from the provider response
`data` object: `data.get("full_number") or data.get("number") or data.get("copy")`. -/
def providerNumberOf (data_alloc : JVal) : JVal :=
  pyOr (pyGet data_alloc "full_number") (pyOr (pyGet data_alloc "number") (pyGet data_alloc "copy"))

/-- The country label of an allocation:
`data.get("country") or (country if country != "__ANY__" else "Unknown")`. -/
def countryNameOf (data_alloc : JVal) (country : String) : String :=
  if truthy (pyGet data_alloc "country") then pyStr (pyGet data_alloc "country")
  else if country == "__ANY__" then "Unknown" else country

/-- The allocation step of `callback_query_handler`: skip when the provider
returned no truthy number, otherwise persist a pending entry via
`add_allocation`. -/
def try_alloc_from_data (data_alloc : JVal) (rng country : String)
    (now_ms now_s : Int) (nAllocs : Nat) : Option Alloc :=
  if truthy (providerNumberOf data_alloc) then
    some (add_allocation now_ms nAllocs rng (providerNumberOf data_alloc)
      (countryNameOf data_alloc country) now_s)
  else none

/-! ## Side-effect traces of the per-record evaluation -/

/-- Observable actions of a terminal transition. -/
inductive Act where
  | persist
  | sendUserCard
  | sendUserFull
  | sendUserOtp
  | sendUserExpired
  | sendFwd
  | removeJob
deriving DecidableEq

/-- Which send calls raise, modelling unreachable destinations. -/
structure SendOracle where
  failCard : Bool
  failFull : Bool
  failOtp : Bool
  failFwd : Bool
  failExpired : Bool
deriving DecidableEq

/-- Action trace of the success branch: persist, then the requester sends in
one try block (a raise skips the rest of that block only), then the forward
send in its own try block, then job removal and the archiving persist. -/
def successTrace (o : SendOracle) (msgNonEmpty : Bool) : List Act :=
  Act.persist ::
    (Act.sendUserCard ::
      (if o.failCard then []
       else if msgNonEmpty then
         Act.sendUserFull :: (if o.failFull then [] else [Act.sendUserOtp])
       else [Act.sendUserOtp]))
  ++ [Act.sendFwd]
  ++ [Act.removeJob, Act.persist]

/-- Action trace of the expired branch: persist, one requester send in its
own try block, then job removal and the archiving persist. -/
def expiredTrace (_o : SendOracle) : List Act :=
  [Act.persist, Act.sendUserExpired, Act.removeJob, Act.persist]

/-! ## Per-record evaluation inside `polling_job_for_alloc` -/

/-- The explicit number field of a record:
`e.get("full_number") or e.get("number") or e.get("copy") or ""`. -/
def explicitOf (e : JVal) : JVal :=
  pyOr (pyGet e "full_number") (pyOr (pyGet e "number") (pyOr (pyGet e "copy") (.str "")))

/-- The matcher: the allocation digits equal, contain or are contained in the
digit form of the explicit field, or else the allocation digits occur inside
the digit form of the flattened record. -/
def matchedB (digits : String) (e : JVal) : Bool :=
  let expd := digits_onlyJ (explicitOf e)
  (!(expd == "") && !(digits == "") &&
    (digits == expd || substrB digits expd || substrB expd digits))
  || (!(digits == "") && substrB digits (digits_only (flatten_values e)))

/-- `msg = extract_message_text(e) or flatten_values(e)`. -/
def entry_msg (e : JVal) : String :=
  let m := extract_message_text e
  if m == "" then flatten_values e else m

/-- `otp = extract_otp_from_text(msg) or extract_otp_from_text(flatten_values(e))`. -/
def entry_otp (e : JVal) : Option String :=
  let o1 := extract_otp_from_text (entry_msg e)
  if optTruthy o1 then o1 else extract_otp_from_text (flatten_values e)

/-- `status_field = (e.get("status") or "") or ""`. -/
def status_field (e : JVal) : JVal :=
  pyOr (pyOr (pyGet e "status") (.str "")) (.str "")

/-- The expiry condition `provider_says_expired`: a string status field that
contains an expiry keyword, or else an expiry keyword in the message while
the allocation digits occur in the digit form of the message. -/
def provider_expired (digits : String) (e : JVal) : Bool :=
  let msgCheck :=
    let low := toLowerStr (entry_msg e)
    (substrB "expired" low || substrB "failed" low) &&
      !(digits == "") && substrB digits (digits_only (entry_msg e))
  match status_field e with
  | .str s =>
      if substrB "expired" (toLowerStr s) || substrB "failed" (toLowerStr s) then true
      else msgCheck
  | _ => msgCheck

/-- Result of evaluating one provider record against one allocation. -/
inductive EvalOutcome where
  | noTrigger
  | terminal : Alloc → List Act → EvalOutcome
deriving DecidableEq

/-- Evaluation of one record (`polling_job_for_alloc`, per-entry body): no
match or no trigger leaves the allocation alone; an extracted OTP with no
OTP held yet makes the success transition; else a provider expiry signal
makes the expired transition. -/
def evalEntry (o : SendOracle) (alloc : Alloc) (e : JVal) : EvalOutcome :=
  if matchedB alloc.digits e then
    if optTruthy (entry_otp e) && otpFalsy alloc.otp then
      .terminal { alloc with otp := entry_otp e, status := "success" }
        (successTrace o (!(entry_msg e == "")))
    else if provider_expired alloc.digits e then
      .terminal { alloc with status := "expired" } (expiredTrace o)
    else .noTrigger
  else .noTrigger

/-- Status of the allocation after an outcome, when terminal. -/
def statusOf : EvalOutcome → Option String
  | .noTrigger => none
  | .terminal a _ => some a.status

/-- OTP of the allocation after an outcome, when terminal. -/
def otpOf : EvalOutcome → Option (Option String)
  | .noTrigger => none
  | .terminal a _ => some a.otp

/-- Trace of an outcome; empty when nothing triggered. -/
def traceOf : EvalOutcome → List Act
  | .noTrigger => []
  | .terminal _ tr => tr

/-- Number of requester-directed send attempts in a trace. -/
def countUserSends (tr : List Act) : Nat :=
  tr.count Act.sendUserCard + tr.count Act.sendUserFull +
    tr.count Act.sendUserOtp + tr.count Act.sendUserExpired

/-! ## The poll pass: dates, status filters, pages -/

/-- Entry loop: first terminal outcome wins, a record that triggers nothing
is skipped. -/
def passEntries (o : SendOracle) (alloc : Alloc) : JList → EvalOutcome
  | .nil => .noTrigger
  | .cons e rest =>
      match evalEntry o alloc e with
      | .noTrigger => passEntries o alloc rest
      | r => r

/-- A provider fetch: `none` models a raised request exception. -/
def Fetch : Type := String → Option String → Nat → Option JVal

/-- One date/status/page combination: failed fetch or falsy `data` yields no
trigger; a list `data` is iterated, a non-list `data` is wrapped. -/
def pollOnce (f : Fetch) (o : SendOracle) (alloc : Alloc)
    (date : String) (st : Option String) (page : Nat) : EvalOutcome :=
  match f date st page with
  | none => .noTrigger
  | some resp =>
      let data := pyGet resp "data"
      if truthy data then
        passEntries o alloc (match data with | .arr xs => xs | v => .cons v .nil)
      else .noTrigger

/-- Pages examined per date and status filter: `range(1, 6)`. -/
def pages : List Nat := [1, 2, 3, 4, 5]

/-- Status filters examined per date: unfiltered then success-only. -/
def statusFilters : List (Option String) := [none, some "success"]

/-- Innermost loop over pages. -/
def pollPages (f : Fetch) (o : SendOracle) (alloc : Alloc)
    (date : String) (st : Option String) : List Nat → EvalOutcome
  | [] => .noTrigger
  | p :: ps =>
      match pollOnce f o alloc date st p with
      | .noTrigger => pollPages f o alloc date st ps
      | r => r

/-- Middle loop over status filters. -/
def pollStatuses (f : Fetch) (o : SendOracle) (alloc : Alloc)
    (date : String) : List (Option String) → EvalOutcome
  | [] => .noTrigger
  | st :: sts =>
      match pollPages f o alloc date st pages with
      | .noTrigger => pollStatuses f o alloc date sts
      | r => r

/-- Outer loop over dates. -/
def pollDates (f : Fetch) (o : SendOracle) (alloc : Alloc) : List String → EvalOutcome
  | [] => .noTrigger
  | d :: ds =>
      match pollStatuses f o alloc d statusFilters with
      | .noTrigger => pollDates f o alloc ds
      | r => r

/-- One full poll pass over the given date list. -/
def pollPass (f : Fetch) (o : SendOracle) (alloc : Alloc) (dates : List String) : EvalOutcome :=
  pollDates f o alloc dates

/-- The date list of a pass: the allocation day (when the stored timestamp is
truthy), then today, then yesterday.  `dateOf` models `strftime` of
`fromtimestamp`. -/
def mkDates (dateOf : Int → String) (today yesterday : String) (allocated_at : Int) :
    List String :=
  (if allocated_at == 0 then [] else [dateOf allocated_at]) ++ [today, yesterday]

/-- The flattened combination list in the order the nested loops visit it. -/
def combos (dates : List String) : List (String × Option String × Nat) :=
  dates.flatMap fun d => statusFilters.flatMap fun st => pages.map fun p => (d, st, p)

/-- Flat scan over an explicit combination list, first terminal outcome wins. -/
def scanCombos (f : Fetch) (o : SendOracle) (alloc : Alloc) :
    List (String × Option String × Nat) → EvalOutcome
  | [] => .noTrigger
  | (d, st, p) :: cs =>
      match pollOnce f o alloc d st p with
      | .noTrigger => scanCombos f o alloc cs
      | r => r

/-! ## Chat state and the polling job -/

/-- The per-chat persisted lists. -/
structure ChatState where
  allocations : List Alloc
  history : List Alloc
deriving DecidableEq

/-- `get_allocation`: find the active allocation with the given id. -/
def get_allocation (st : ChatState) (alloc_id : String) : Option Alloc :=
  st.allocations.find? (fun a => a.id == alloc_id)

/-- `polling_job_for_alloc` at the chat-state level: a missing allocation is
a no-op; a pass with no trigger is a no-op; a terminal transition removes the
entry from the active list and appends the mutated entry to history. -/
def polling_job (f : Fetch) (o : SendOracle) (dateOf : Int → String)
    (today yesterday : String) (st : ChatState) (alloc_id : String) : ChatState :=
  match get_allocation st alloc_id with
  | none => st
  | some alloc =>
      match pollPass f o alloc (mkDates dateOf today yesterday alloc.allocated_at) with
      | .noTrigger => st
      | .terminal a _ =>
          { allocations := st.allocations.filter (fun x => !(x.id == alloc_id))
            history := st.history ++ [a] }

/-! ## Restart scheduling (`start_telegram_updater`) -/

/-- The restart filter: schedule a poll job for a saved allocation whose
status is not expired and whose otp is falsy. -/
def scheduledOnRestart (a : Alloc) : Bool :=
  !(a.status == "expired") && otpFalsy a.otp

/-- The allocations that get a poll job on restart. -/
def restart_jobs (allocs : List Alloc) : List Alloc :=
  allocs.filter scheduledOnRestart

/-- Well-formedness of a persisted allocation, as established by
`add_allocation` and the two terminal transitions: the status is one of the
three lifecycle states, and a truthy otp is held exactly in the success
state. -/
def wfAlloc (a : Alloc) : Prop :=
  (a.status = "pending" ∨ a.status = "success" ∨ a.status = "expired") ∧
    (a.status = "success" ↔ otpFalsy a.otp = false)

instance (a : Alloc) : Decidable (wfAlloc a) := by
  unfold wfAlloc; exact inferInstance

/-! ## Definitions modelled from the spec

The two definitions below follow the words of the specification, not the
code; the code contains no counterpart.  They exist to compare the claimed
behaviour with the code behaviour. -/

/-- Modelled from the spec: `trailing_fingerprints(digits, lengths)` — for
each length in order, when the digit string is long enough, its trailing
substring of that length.  The code derives and stores no fingerprints. -/
def trailing_fingerprints_spec (digits : String) (lengths : List Nat) : List String :=
  (lengths.filter (fun n => n ≤ digits.length)).map
    (fun n => String.mk (digits.toList.drop (digits.length - n)))

/-- The default fingerprint lengths named by the spec. -/
def fingerprintLengths : List Nat := [6, 7, 8, 9, 10]

/-- Length of the maximal alphanumeric run at the head of the list. -/
def alnumRunLen : List Char → Nat
  | [] => 0
  | c :: cs => if c.isAlphanum then alnumRunLen cs + 1 else 0

/-- Backtracking over the prefix length of the branded-code shape at a fixed
start position. -/
def brandedTry (l : List Char) : Nat → Option String
  | 0 => none
  | j + 1 =>
      match l.drop (j + 1) with
      | sep :: rest =>
          if sep == '-' || sep == '_' then
            let r := digitRunLen rest
            if 3 ≤ r then
              some (String.mk (l.take (j + 1) ++ sep :: rest.take (min r 8)))
            else brandedTry l j
          else brandedTry l j
      | [] => brandedTry l j

/-- Leftmost branded-code occurrence in a character list. -/
def brandedSearch : List Char → Option String
  | [] => none
  | c :: cs =>
      if c.isAlphanum then
        match brandedTry (c :: cs) (min 6 (alnumRunLen (c :: cs))) with
        | some s => some s
        | none => brandedSearch cs
      else brandedSearch cs

/-- Modelled from the spec: the branded-code extraction rule — a short
alphanumeric prefix of one to six characters joined by a dash or underscore
to three to eight digits.  The code applies no such rule. -/
def branded_rule_spec (s : String) : Option String :=
  brandedSearch s.toList

/-! ## Concrete inputs used by the counterexamples and witnesses -/

/-- A record whose flattened text contains only the last six digits of the
allocation number. -/
def recShortTail : JVal := .obj (.cons "text" (.str "435987") .nil)

/-- An expired allocation that still holds no OTP. -/
def allocExpired : Alloc :=
  { id := "a1", range := "261347XXX", number := "261347435123"
    digits := "261347435123", country := "X", allocated_at := 7
    status := "expired", otp := none }

/-- A pending allocation. -/
def allocPending : Alloc :=
  { id := "a2", range := "261347XXX", number := "261347435123"
    digits := "261347435123", country := "X", allocated_at := 7
    status := "pending", otp := none }

/-- A record carrying the full number and a code-bearing message. -/
def recWithOtp : JVal :=
  .obj (.cons "number" (.str "261347435123")
    (.cons "message" (.str "Code: 552910") .nil))

/-- The expiry-scenario record of the spec. -/
def recExpired : JVal :=
  .obj (.cons "number" (.str "261347435123")
    (.cons "status" (.str "expired") .nil))

/-- A record that both signals expiry and carries an extractable code. -/
def recExpiredWithOtp : JVal :=
  .obj (.cons "number" (.str "261347435123")
    (.cons "status" (.str "expired")
      (.cons "message" (.str "code 1234 failed") .nil)))

/-- The all-succeed send oracle. -/
def oracle0 : SendOracle :=
  { failCard := false, failFull := false, failOtp := false
    failFwd := false, failExpired := false }

/-- A provider response whose number field contains no digit. -/
def dataNoDigits : JVal := .obj (.cons "full_number" (.str "ABC") .nil)

/-- A successful allocation holding its OTP. -/
def allocSuccess : Alloc :=
  { allocPending with status := "success", otp := some "552910" }

/-- An empty chat state. -/
def stEmpty : ChatState := { allocations := [], history := [] }

/-- The always-failing fetch. -/
def fetchNone : Fetch := fun _ _ _ => none

/-- A constant date renderer. -/
def dateOf0 : Int → String := fun _ => "2021-01-20"

/-- A chat state holding one pending allocation. -/
def chatStOne : ChatState := { allocations := [allocPending], history := [] }

/-! ## Helper lemmas -/

theorem isPrefB_iff : ∀ a b : List Char, isPrefB a b = true ↔ a <+: b
  | [], b => by simp [isPrefB]
  | x :: xs, [] => by simp [isPrefB]
  | x :: xs, y :: ys => by
      simp [isPrefB, List.cons_prefix_cons, isPrefB_iff xs ys]

theorem isSubB_iff : ∀ n h : List Char, isSubB n h = true ↔ n <:+: h
  | n, [] => by simp [isSubB, isPrefB_iff]
  | n, c :: t => by
      simp [isSubB, isPrefB_iff, isSubB_iff n t, List.infix_cons_iff]

theorem substrB_iff (n h : String) : substrB n h = true ↔ n.toList <:+: h.toList :=
  isSubB_iff _ _

/-! ## Claim C1: the allocation matcher -/

/-- Claim C1, counterexample: the last six digits of the allocation digit
string form a spec fingerprint and occur in the digit form of the flattened
record, yet the matcher of the code returns no match. -/
theorem matcher_fingerprint_counterexample :
    "435987" ∈ trailing_fingerprints_spec "261347435987" fingerprintLengths ∧
    substrB "435987" (digits_only (flatten_values recShortTail)) = true ∧
    matchedB "261347435987" recShortTail = false := by
  refine ⟨?_, rfl, rfl⟩
  decide

/-- Claim C1, amended: the code stores no fingerprints.  A record matches an
allocation exactly when the allocation digit string is non-empty and either
the digit form of the first truthy of the record fields
number/full_number/copy is non-empty and contains or is contained in the
allocation digits, or the whole allocation digit string occurs inside the
digit form of the flattened record.  A flattened text containing only the
trailing six digits therefore does not match. -/
theorem matcher_amended : ∀ (digits : String) (e : JVal),
    matchedB digits e = true ↔
      (¬ digits = "" ∧
        ((¬ digits_onlyJ (explicitOf e) = "" ∧
            (digits.toList <:+: (digits_onlyJ (explicitOf e)).toList ∨
              (digits_onlyJ (explicitOf e)).toList <:+: digits.toList))
          ∨ digits.toList <:+: (digits_only (flatten_values e)).toList)) := by
  intro digits e
  have hb : digits = digits_onlyJ (explicitOf e) →
      digits.toList <:+: (digits_onlyJ (explicitOf e)).toList := by
    intro h; rw [h]
  simp only [matchedB, Bool.or_eq_true, Bool.and_eq_true, Bool.not_eq_true',
    beq_eq_false_iff_ne, beq_iff_eq, substrB_iff]
  constructor
  · intro h; tauto
  · intro h; tauto

/-- Witness for the amended C1 theorem at the positive concrete input: a
record whose flattened text contains the full allocation digit string. -/
theorem matcher_amended_witness :
    matchedB "261347435123" recExpired = true ↔
      (¬ "261347435123" = "" ∧
        ((¬ digits_onlyJ (explicitOf recExpired) = "" ∧
            (("261347435123" : String).toList <:+: (digits_onlyJ (explicitOf recExpired)).toList ∨
              (digits_onlyJ (explicitOf recExpired)).toList <:+: ("261347435123" : String).toList))
          ∨ ("261347435123" : String).toList <:+: (digits_only (flatten_values recExpired)).toList)) :=
  matcher_amended "261347435123" recExpired

/-! ## Claim C2: branded codes in the OTP extractor -/

/-- Claim C2, counterexample: on the branded-code input the extractor returns
the bare digit run, not the whole branded token the claim names. -/
theorem otp_branded_counterexample :
    extract_otp_from_text "FB-77213 is your login code" = some "77213" ∧
    ¬ extract_otp_from_text "FB-77213 is your login code" = some "FB-77213" := by
  refine ⟨rfl, ?_⟩
  decide

/-- Claim C2, amended: the code has no branded-code rule; for a message with
a short alphanumeric prefix joined by a dash to four or more digits, the
extractor returns the digit run alone, because the bare digit-run rule
matches it first. -/
theorem otp_branded_amended :
    extract_otp_from_text "FB-77213 is your login code" = some "77213" ∧
    extract_otp_from_text "FB-46541" = some "46541" :=
  ⟨rfl, rfl⟩

/-! ## Claim C5: rule order and totality of the OTP extractor -/

theorem digitRunLen_le : ∀ l : List Char, digitRunLen l ≤ l.length
  | [] => Nat.le_refl 0
  | c :: cs => by
      simp only [digitRunLen, List.length_cons]
      split
      · exact Nat.succ_le_succ (digitRunLen_le cs)
      · exact Nat.zero_le _

theorem take_digits_all : ∀ (l : List Char) (k : Nat), k ≤ digitRunLen l →
    ((l.take k).all Char.isDigit) = true := by
  intro l
  induction l with
  | nil => intro k _; simp
  | cons c cs ih =>
      intro k hk
      cases k with
      | zero => simp
      | succ k =>
          cases hc : c.isDigit with
          | true =>
              simp only [digitRunLen, hc, if_true] at hk
              simp only [List.take_succ_cons, List.all_cons, hc, Bool.true_and]
              exact ih k (Nat.le_of_succ_le_succ hk)
          | false => simp [digitRunLen, hc] at hk

theorem rule2Search_shape : ∀ (l : List Char) (prev : Option Char) (r : String),
    rule2Search prev l = some r →
      4 ≤ r.length ∧ r.length ≤ 8 ∧ r.toList.all Char.isDigit = true := by
  intro l
  induction l with
  | nil => intro prev r h; simp [rule2Search] at h
  | cons c cs ih =>
      intro prev r h
      rw [rule2Search] at h
      split_ifs at h with h1 h2
      · have hr : String.mk ((c :: cs).take (digitRunLen (c :: cs))) = r :=
          Option.some.inj h
        have hrun : 4 ≤ digitRunLen (c :: cs) ∧ digitRunLen (c :: cs) ≤ 8 := by
          rcases Bool.and_eq_true_iff.mp h2 with ⟨h4, -⟩
          rcases Bool.and_eq_true_iff.mp h4 with ⟨ha, hb⟩
          exact ⟨of_decide_eq_true ha, of_decide_eq_true hb⟩
        have hlen : r.length = digitRunLen (c :: cs) := by
          rw [← hr]
          show ((c :: cs).take (digitRunLen (c :: cs))).length = _
          rw [List.length_take]
          exact Nat.min_eq_left (digitRunLen_le _)
        refine ⟨by omega, by omega, ?_⟩
        rw [← hr]
        exact take_digits_all _ _ (Nat.le_refl _)
      · exact ih (some c) r h
      · exact ih (some c) r h

theorem rule4Try_shape : ∀ (l : List Char) (j : Nat) (r : String),
    rule4Try l j = some r →
      4 ≤ r.length ∧ r.length ≤ 8 ∧ r.toList.all Char.isDigit = true := by
  intro l j
  induction j with
  | zero => intro r h; simp [rule4Try] at h
  | succ j ih =>
      intro r h
      rw [rule4Try] at h
      split_ifs at h with h1
      · have hr : String.mk ((((l.drop (j + 1)).dropWhile isPySpace)).take
            (min (digitRunLen ((l.drop (j + 1)).dropWhile isPySpace)) 8)) = r :=
          Option.some.inj h
        have h4 : 4 ≤ digitRunLen ((l.drop (j + 1)).dropWhile isPySpace) := h1
        have hlen : r.length = min (digitRunLen ((l.drop (j + 1)).dropWhile isPySpace)) 8 := by
          rw [← hr]
          show (((l.drop (j + 1)).dropWhile isPySpace).take _).length = _
          rw [List.length_take]
          exact Nat.min_eq_left (Nat.le_trans (Nat.min_le_left _ _) (digitRunLen_le _))
        refine ⟨by omega, by omega, ?_⟩
        rw [← hr]
        exact take_digits_all _ _ (Nat.min_le_left _ _)
      · exact ih r h

theorem rule4Search_shape : ∀ (l : List Char) (r : String),
    rule4Search l = some r →
      4 ≤ r.length ∧ r.length ≤ 8 ∧ r.toList.all Char.isDigit = true := by
  intro l
  induction l with
  | nil => intro r h; simp [rule4Search] at h
  | cons c cs ih =>
      intro r h
      rw [rule4Search] at h
      split_ifs at h with h1
      · cases h4 : rule4Try (c :: cs) (min 3 (markerRunLen (c :: cs))) with
        | none => rw [h4] at h; exact ih r h
        | some s => rw [h4] at h; exact (Option.some.inj h) ▸ rule4Try_shape _ _ _ h4
      · exact ih r h

/-- Claim C5, counterexample: on an input where only the claimed branded rule
would match, the extractor returns none instead of the branded token. -/
theorem otp_rule_order_counterexample :
    extract_otp_from_text "AB-123" = none ∧
    branded_rule_spec "AB-123" = some "AB-123" :=
  ⟨rfl, rfl⟩

/-- Claim C5, amended: the extractor is total over exactly two rules — the
bare word-bounded digit run of length four to eight, then the marker-prefixed
digit run — applied in that order with first match winning; there is no
branded-prefix rule.  Every returned token is a run of four to eight decimal
digits, and the sender-marker example returns its digits. -/
theorem otp_rule_order_amended :
    (∀ t : String, extract_otp_from_text t = none ↔
        (t = "" ∨ (rule2Search none (normChars t) = none ∧ rule4Search (normChars t) = none)))
    ∧ (∀ (t : String) (c : String), ¬ t = "" → rule2Search none (normChars t) = some c →
        extract_otp_from_text t = some c)
    ∧ (∀ (t r : String), extract_otp_from_text t = some r →
        4 ≤ r.length ∧ r.length ≤ 8 ∧ r.toList.all Char.isDigit = true)
    ∧ extract_otp_from_text "Your code is <#> 483920" = some "483920" := by
  refine ⟨?_, ?_, ?_, rfl⟩
  · intro t
    unfold extract_otp_from_text
    split_ifs with h1
    · have ht : t = "" := by simpa using h1
      simp [ht]
    · have ht : ¬ t = "" := by simpa using h1
      cases h2 : rule2Search none (normChars t) with
      | some g => simp [ht, h2]
      | none => simp [ht, h2]
  · intro t c ht h2
    unfold extract_otp_from_text
    rw [if_neg (by simpa using ht), h2]
  · intro t r h
    unfold extract_otp_from_text at h
    by_cases ht : t = ""
    · rw [if_pos (by simpa using ht)] at h
      cases h
    · rw [if_neg (by simpa using ht)] at h
      cases h2 : rule2Search none (normChars t) with
      | some g => rw [h2] at h; exact (Option.some.inj h) ▸ rule2Search_shape _ _ _ h2
      | none => rw [h2] at h; exact rule4Search_shape _ _ h

/-- Witness for the amended C5 theorem at concrete inputs. -/
theorem otp_rule_order_amended_witness :
    (extract_otp_from_text "hello" = none ↔
      ("hello" = "" ∨ (rule2Search none (normChars "hello") = none ∧
        rule4Search (normChars "hello") = none)))
    ∧ (¬ ("code 4711" : String) = "" ∧
        rule2Search none (normChars "code 4711") = some "4711" ∧
        extract_otp_from_text "code 4711" = some "4711")
    ∧ (extract_otp_from_text "pin 12345" = some "12345" ∧
        (4 ≤ ("12345" : String).length ∧ ("12345" : String).length ≤ 8 ∧
          ("12345" : String).toList.all Char.isDigit = true)) := by
  refine ⟨otp_rule_order_amended.1 "hello", ⟨?_, rfl, ?_⟩, ⟨rfl, ?_⟩⟩
  · decide
  · exact otp_rule_order_amended.2.1 "code 4711" "4711" (by decide) rfl
  · exact otp_rule_order_amended.2.2.1 "pin 12345" "12345" rfl

/-! ## Poll loop refinement lemmas -/

theorem scanCombos_append (f : Fetch) (o : SendOracle) (a : Alloc) :
    ∀ xs ys, scanCombos f o a (xs ++ ys) =
      match scanCombos f o a xs with
      | .noTrigger => scanCombos f o a ys
      | r => r := by
  intro xs ys
  induction xs with
  | nil => rfl
  | cons c cs ih =>
      obtain ⟨d, st, p⟩ := c
      simp only [List.cons_append, scanCombos]
      cases pollOnce f o a d st p with
      | noTrigger => exact ih
      | terminal x tr => rfl

theorem pollPages_eq (f : Fetch) (o : SendOracle) (a : Alloc) (d : String)
    (st : Option String) : ∀ ps, pollPages f o a d st ps =
      scanCombos f o a (ps.map fun p => (d, st, p)) := by
  intro ps
  induction ps with
  | nil => rfl
  | cons p ps ih =>
      simp only [pollPages, List.map_cons, scanCombos]
      cases pollOnce f o a d st p with
      | noTrigger => exact ih
      | terminal x tr => rfl

theorem pollStatuses_eq (f : Fetch) (o : SendOracle) (a : Alloc) (d : String) :
    ∀ sts, pollStatuses f o a d sts =
      scanCombos f o a (sts.flatMap fun st => pages.map fun p => (d, st, p)) := by
  intro sts
  induction sts with
  | nil => rfl
  | cons st sts ih =>
      simp only [pollStatuses, List.flatMap_cons]
      rw [scanCombos_append, pollPages_eq]
      cases scanCombos f o a (pages.map fun p => (d, st, p)) with
      | noTrigger => exact ih
      | terminal x tr => rfl

theorem pollDates_eq (f : Fetch) (o : SendOracle) (a : Alloc) :
    ∀ ds, pollDates f o a ds = scanCombos f o a (combos ds) := by
  intro ds
  induction ds with
  | nil => rfl
  | cons d ds ih =>
      simp only [pollDates, combos, List.flatMap_cons]
      rw [scanCombos_append, pollStatuses_eq]
      cases scanCombos f o a (statusFilters.flatMap fun st => pages.map fun p => (d, st, p)) with
      | noTrigger => exact ih
      | terminal x tr => rfl

/-! ## Claim C6: search order, early exit, fetch-failure skip -/

/-- Claim C6: a poll pass walks exactly the flattened combination list — the
allocation-day, today, yesterday dates in that order, inside each date the
unfiltered then success-only filters, inside each filter pages one to five —
the first terminal-triggering record ends the pass, and a failed fetch
merely skips its combination, changing nothing. -/
theorem poll_order :
    (∀ (f : Fetch) (o : SendOracle) (a : Alloc) (dates : List String),
        pollPass f o a dates = scanCombos f o a (combos dates))
    ∧ (∀ (dateOf : Int → String) (today yesterday : String) (t : Int), ¬ t = 0 →
        mkDates dateOf today yesterday t = [dateOf t, today, yesterday])
    ∧ (∀ (f : Fetch) (o : SendOracle) (a : Alloc) (d : String) (st : Option String)
        (p : Nat) (cs : List (String × Option String × Nat)), f d st p = none →
          scanCombos f o a ((d, st, p) :: cs) = scanCombos f o a cs)
    ∧ (∀ (o : SendOracle) (a : Alloc) (e : JVal) (rest : JList),
        ¬ evalEntry o a e = .noTrigger →
          passEntries o a (.cons e rest) = evalEntry o a e)
    ∧ (∀ (f : Fetch) (o : SendOracle) (dateOf : Int → String) (today yesterday : String)
        (st : ChatState) (alloc_id : String) (alloc : Alloc),
        get_allocation st alloc_id = some alloc →
        pollPass f o alloc (mkDates dateOf today yesterday alloc.allocated_at) = .noTrigger →
          polling_job f o dateOf today yesterday st alloc_id = st) := by
  refine ⟨?_, ?_, ?_, ?_, ?_⟩
  · intro f o a dates
    exact pollDates_eq f o a dates
  · intro dateOf today yesterday t ht
    unfold mkDates
    rw [if_neg (by simpa using ht)]
    rfl
  · intro f o a d st p cs h
    simp only [scanCombos, pollOnce, h]
  · intro o a e rest h
    unfold passEntries
    cases he : evalEntry o a e with
    | noTrigger => exact absurd he h
    | terminal x tr => rfl
  · intro f o dateOf today yesterday st alloc_id alloc hget hpass
    unfold polling_job
    rw [hget]
    dsimp only
    rw [hpass]

/-- Witness for the C6 theorem at concrete inputs. -/
theorem poll_order_witness :
    (pollPass fetchNone oracle0 allocPending ["a", "b"]
      = scanCombos fetchNone oracle0 allocPending (combos ["a", "b"]))
    ∧ (¬ (7 : Int) = 0 ∧ mkDates dateOf0 "t" "y" 7 = [dateOf0 7, "t", "y"])
    ∧ (fetchNone "a" none 1 = none ∧
        scanCombos fetchNone oracle0 allocPending [("a", none, 1)]
          = scanCombos fetchNone oracle0 allocPending [])
    ∧ (¬ evalEntry oracle0 allocPending recExpired = .noTrigger ∧
        passEntries oracle0 allocPending (.cons recExpired .nil)
          = evalEntry oracle0 allocPending recExpired)
    ∧ (get_allocation chatStOne "a2" = some allocPending ∧
        pollPass fetchNone oracle0 allocPending
          (mkDates dateOf0 "t" "y" allocPending.allocated_at) = .noTrigger ∧
        polling_job fetchNone oracle0 dateOf0 "t" "y" chatStOne "a2" = chatStOne) := by
  refine ⟨poll_order.1 fetchNone oracle0 allocPending ["a", "b"],
    ⟨by decide, poll_order.2.1 dateOf0 "t" "y" 7 (by decide)⟩,
    ⟨rfl, poll_order.2.2.1 fetchNone oracle0 allocPending "a" none 1 [] rfl⟩,
    ⟨?_, ?_⟩, ⟨rfl, rfl, ?_⟩⟩
  · decide
  · exact poll_order.2.2.2.1 oracle0 allocPending recExpired .nil (by decide)
  · exact poll_order.2.2.2.2 fetchNone oracle0 dateOf0 "t" "y" chatStOne "a2"
      allocPending rfl rfl

/-! ## Claim C7: restart scheduling -/

/-- Claim C7: among well-formed persisted allocations, the restart loop
schedules a poll job exactly for the pending ones — never for a success or
expired allocation. -/
theorem restart_schedules_pending :
    ∀ (allocs : List Alloc) (a : Alloc), (∀ x ∈ allocs, wfAlloc x) → a ∈ allocs →
      (a ∈ restart_jobs allocs ↔ a.status = "pending") := by
  intro allocs a hwf ha
  unfold restart_jobs
  rw [List.mem_filter]
  obtain ⟨hs, hiff⟩ := hwf a ha
  constructor
  · rintro ⟨-, hp⟩
    unfold scheduledOnRestart at hp
    rw [Bool.and_eq_true_iff, Bool.not_eq_true', beq_eq_false_iff_ne] at hp
    obtain ⟨hne, hfal⟩ := hp
    rcases hs with h | h | h
    · exact h
    · rw [hiff.mp h] at hfal; cases hfal
    · exact absurd h hne
  · intro hp
    refine ⟨ha, ?_⟩
    unfold scheduledOnRestart
    rw [Bool.and_eq_true_iff, Bool.not_eq_true', beq_eq_false_iff_ne]
    refine ⟨by rw [hp]; decide, ?_⟩
    cases hof : otpFalsy a.otp with
    | true => rfl
    | false =>
        have hsucc := hiff.mpr hof
        rw [hp] at hsucc
        exact absurd hsucc (by decide)

/-- Witness for the C7 theorem on a concrete well-formed state holding one
pending, one success and one expired allocation. -/
theorem restart_schedules_pending_witness :
    ((∀ x ∈ [allocPending, allocSuccess, allocExpired], wfAlloc x) ∧
      allocPending ∈ [allocPending, allocSuccess, allocExpired] ∧
      (allocPending ∈ restart_jobs [allocPending, allocSuccess, allocExpired] ↔
        allocPending.status = "pending"))
    ∧ (allocSuccess ∈ restart_jobs [allocPending, allocSuccess, allocExpired] ↔
        allocSuccess.status = "pending")
    ∧ (allocExpired ∈ restart_jobs [allocPending, allocSuccess, allocExpired] ↔
        allocExpired.status = "pending") := by
  refine ⟨⟨?_, ?_, ?_⟩, ?_, ?_⟩
  · decide
  · decide
  · exact restart_schedules_pending _ allocPending (by decide) (by decide)
  · exact restart_schedules_pending _ allocSuccess (by decide) (by decide)
  · exact restart_schedules_pending _ allocExpired (by decide) (by decide)

/-! ## Claim C9: digits of a persisted allocation -/

/-- Claim C9, counterexample: a provider number with no digit characters is
still persisted as an active pending allocation, with a non-empty number and
an empty digits field. -/
theorem allocation_digits_counterexample :
    (try_alloc_from_data dataNoDigits "r" "X" 1 2 0).map Alloc.number = some "ABC" ∧
    (try_alloc_from_data dataNoDigits "r" "X" 1 2 0).map Alloc.digits = some "" ∧
    (try_alloc_from_data dataNoDigits "r" "X" 1 2 0).map Alloc.status = some "pending" :=
  ⟨rfl, rfl, rfl⟩

/-- Claim C9, amended: every persisted allocation starts pending with no otp
and with digits equal to the digit filter of the provider number; creation is
skipped only for a falsy provider number, so the digits field is empty
exactly when the accepted number string contains no decimal digit — a
digit-free non-empty number is still persisted as active. -/
theorem allocation_digits_amended :
    ∀ (d : JVal) (rng country : String) (now_ms now_s : Int) (n : Nat) (a : Alloc),
      try_alloc_from_data d rng country now_ms now_s n = some a →
        a.status = "pending" ∧ a.otp = none ∧
        a.digits = digits_onlyJ (providerNumberOf d) ∧
        (a.digits = "" ↔
          ((pyStr (providerNumberOf d)).toList.all (fun c => !(c.isDigit))) = true) := by
  intro d rng country now_ms now_s n a h
  unfold try_alloc_from_data at h
  cases ht : truthy (providerNumberOf d) with
  | false => rw [ht] at h; simp at h
  | true =>
      rw [ht] at h
      simp only [if_true] at h
      injection h with hA
      refine ⟨by rw [← hA]; rfl, by rw [← hA]; rfl, by rw [← hA]; rfl, ?_⟩
      rw [← hA]
      show digits_onlyJ (providerNumberOf d) = "" ↔ _
      unfold digits_onlyJ
      rw [ht]
      simp only [if_true]
      unfold filterDigits
      constructor
      · intro hmk
        have hl : (pyStr (providerNumberOf d)).toList.filter Char.isDigit = [] := by
          have := congrArg String.toList hmk
          simpa using this
        rw [List.all_eq_true]
        intro x hx
        have := List.filter_eq_nil_iff.mp hl x hx
        simpa using this
      · intro hall
        have hl : (pyStr (providerNumberOf d)).toList.filter Char.isDigit = [] := by
          rw [List.filter_eq_nil_iff]
          intro x hx
          have := List.all_eq_true.mp hall x hx
          simpa using this
        rw [hl]

/-- Witness for the amended C9 theorem at the digit-free concrete input. -/
theorem allocation_digits_amended_witness :
    try_alloc_from_data dataNoDigits "r" "X" 1 2 0
        = some (add_allocation 1 0 "r" (.str "ABC") "X" 2) ∧
    ((add_allocation 1 0 "r" (.str "ABC") "X" 2).status = "pending" ∧
      (add_allocation 1 0 "r" (.str "ABC") "X" 2).otp = none ∧
      (add_allocation 1 0 "r" (.str "ABC") "X" 2).digits
        = digits_onlyJ (providerNumberOf dataNoDigits) ∧
      ((add_allocation 1 0 "r" (.str "ABC") "X" 2).digits = "" ↔
        ((pyStr (providerNumberOf dataNoDigits)).toList.all (fun c => !(c.isDigit))) = true)) :=
  ⟨rfl, allocation_digits_amended dataNoDigits "r" "X" 1 2 0
    (add_allocation 1 0 "r" (.str "ABC") "X" 2) rfl⟩

/-! ## Claim C3: the terminal lock -/

/-- Claim C3, counterexample: the per-record evaluation invoked on a terminal
(expired) allocation that holds no OTP flips its status to success and sets
its otp — contrary to the claim that no evaluation changes a terminal
allocation. -/
theorem terminal_lock_counterexample :
    allocExpired.status = "expired" ∧ allocExpired.otp = none ∧
    statusOf (evalEntry oracle0 allocExpired recWithOtp) = some "success" ∧
    otpOf (evalEntry oracle0 allocExpired recWithOtp) = some (some "552910") :=
  ⟨rfl, rfl, rfl, rfl⟩

/-- Claim C3, amended: the evaluation guards on the absence of an OTP, not on
terminal status.  Once the otp field is set the evaluation never changes it;
the otp changes only by being set at the transition that sets status to
success; and a polling job whose allocation id is no longer in the active
list (as happens at every terminal transition) leaves the chat state
unchanged.  A terminal allocation that is evaluated directly, however, can
still change status. -/
theorem terminal_lock_amended :
    (∀ (o : SendOracle) (alloc : Alloc) (e : JVal) (a : Alloc) (tr : List Act),
        otpFalsy alloc.otp = false → evalEntry o alloc e = .terminal a tr →
          a.otp = alloc.otp)
    ∧ (∀ (o : SendOracle) (alloc : Alloc) (e : JVal) (a : Alloc) (tr : List Act),
        evalEntry o alloc e = .terminal a tr → ¬ a.otp = alloc.otp →
          otpFalsy alloc.otp = true ∧ a.status = "success" ∧ optTruthy a.otp = true)
    ∧ (∀ (f : Fetch) (o : SendOracle) (dateOf : Int → String) (today yesterday : String)
        (st : ChatState) (alloc_id : String),
        get_allocation st alloc_id = none →
          polling_job f o dateOf today yesterday st alloc_id = st) := by
  refine ⟨?_, ?_, ?_⟩
  · intro o alloc e a tr hfal h
    unfold evalEntry at h
    cases hm : matchedB alloc.digits e with
    | false => simp [hm] at h
    | true =>
        rw [hm] at h
        rw [hfal] at h
        cases hot : optTruthy (entry_otp e) with
        | true =>
            rw [hot] at h
            simp only [Bool.and_false, Bool.false_eq_true, if_false, if_true] at h
            cases hpe : provider_expired alloc.digits e with
            | false => rw [hpe] at h; simp at h
            | true =>
                rw [hpe] at h
                simp only [if_true] at h
                injection h with hA hT
                rw [← hA]
        | false =>
            rw [hot] at h
            simp only [Bool.false_and, Bool.false_eq_true, if_false, if_true] at h
            cases hpe : provider_expired alloc.digits e with
            | false => rw [hpe] at h; simp at h
            | true =>
                rw [hpe] at h
                simp only [if_true] at h
                injection h with hA hT
                rw [← hA]
  · intro o alloc e a tr h hne
    unfold evalEntry at h
    cases hm : matchedB alloc.digits e with
    | false => simp [hm] at h
    | true =>
        rw [hm] at h
        simp only [if_true] at h
        cases hc : (optTruthy (entry_otp e) && otpFalsy alloc.otp) with
        | true =>
            rw [hc] at h
            simp only [if_true] at h
            injection h with hA hT
            rcases Bool.and_eq_true_iff.mp hc with ⟨hot, hf⟩
            refine ⟨hf, ?_, ?_⟩
            · rw [← hA]
            · rw [← hA]; exact hot
        | false =>
            rw [hc] at h
            simp only [Bool.false_eq_true, if_false] at h
            cases hpe : provider_expired alloc.digits e with
            | false => rw [hpe] at h; simp at h
            | true =>
                rw [hpe] at h
                simp only [if_true] at h
                injection h with hA hT
                exact absurd (by rw [← hA]) hne
  · intro f o dateOf today yesterday st alloc_id h
    unfold polling_job
    rw [h]

/-- Witness for the amended C3 theorem at concrete inputs: a success
allocation keeps its otp through an expiry evaluation, an otp change marks a
success transition, and a polling job for an unknown id is a no-op. -/
theorem terminal_lock_amended_witness :
    (otpFalsy allocSuccess.otp = false ∧
      ({ allocSuccess with status := "expired" } : Alloc).otp = allocSuccess.otp)
    ∧ (¬ ({ allocExpired with otp := some "552910", status := "success" } : Alloc).otp
          = allocExpired.otp ∧
        (otpFalsy allocExpired.otp = true ∧
          ({ allocExpired with otp := some "552910", status := "success" } : Alloc).status
            = "success" ∧
          optTruthy ({ allocExpired with otp := some "552910", status := "success" } : Alloc).otp
            = true))
    ∧ (get_allocation stEmpty "x" = none ∧
        polling_job fetchNone oracle0 dateOf0 "t" "y" stEmpty "x" = stEmpty) := by
  refine ⟨⟨by decide, ?_⟩, ⟨by decide, ?_⟩, ⟨rfl, ?_⟩⟩
  · exact terminal_lock_amended.1 oracle0 allocSuccess recExpired
      ({ allocSuccess with status := "expired" }) (expiredTrace oracle0) (by decide) rfl
  · exact terminal_lock_amended.2.1 oracle0 allocExpired recWithOtp
      ({ allocExpired with otp := some "552910", status := "success" })
      (successTrace oracle0 true) rfl (by decide)
  · exact terminal_lock_amended.2.2 fetchNone oracle0 dateOf0 "t" "y" stEmpty "x" rfl

/-! ## Claim C4: the expiry transition -/

/-- Claim C4, counterexample: a matched record whose status field says
expired but whose message also yields an OTP makes the success transition,
not the expired one — the claimed equivalence fails. -/
theorem expiry_transition_counterexample :
    allocPending.status = "pending" ∧
    matchedB allocPending.digits recExpiredWithOtp = true ∧
    provider_expired allocPending.digits recExpiredWithOtp = true ∧
    statusOf (evalEntry oracle0 allocPending recExpiredWithOtp) = some "success" ∧
    otpOf (evalEntry oracle0 allocPending recExpiredWithOtp) = some (some "1234") :=
  ⟨rfl, rfl, rfl, rfl, rfl⟩

/-- Claim C4, amended: a pending allocation with no otp transitions to
expired exactly when the record matches, the expiry condition holds, and the
record yields no OTP — the success transition takes precedence when an OTP
is extractable.  In the spec scenario (matching number, status expired, no
extractable code) the allocation expires, one notification is attempted to
the requester, none to the broadcast target, and no otp is set. -/
theorem expiry_transition_amended :
    (∀ (o : SendOracle) (alloc : Alloc) (e : JVal),
        alloc.status = "pending" → alloc.otp = none →
          (statusOf (evalEntry o alloc e) = some "expired" ↔
            matchedB alloc.digits e = true ∧ provider_expired alloc.digits e = true ∧
              optTruthy (entry_otp e) = false))
    ∧ (statusOf (evalEntry oracle0 allocPending recExpired) = some "expired"
        ∧ otpOf (evalEntry oracle0 allocPending recExpired) = some none
        ∧ countUserSends (traceOf (evalEntry oracle0 allocPending recExpired)) = 1
        ∧ (traceOf (evalEntry oracle0 allocPending recExpired)).count Act.sendFwd = 0) := by
  constructor
  · intro o alloc e hp ho
    have hfal : otpFalsy alloc.otp = true := by rw [ho]; rfl
    unfold evalEntry
    cases hm : matchedB alloc.digits e with
    | false => simp [statusOf]
    | true =>
        rw [hfal]
        cases hot : optTruthy (entry_otp e) with
        | true => simp [statusOf]
        | false =>
            cases hpe : provider_expired alloc.digits e with
            | true => simp [statusOf, hpe]
            | false => simp [statusOf, hpe]
  · exact ⟨rfl, rfl, rfl, rfl⟩

/-- Witness for the amended C4 theorem at the spec-scenario inputs. -/
theorem expiry_transition_amended_witness :
    allocPending.status = "pending" ∧ allocPending.otp = none ∧
    (statusOf (evalEntry oracle0 allocPending recExpired) = some "expired" ↔
      matchedB allocPending.digits recExpired = true ∧
        provider_expired allocPending.digits recExpired = true ∧
        optTruthy (entry_otp recExpired) = false) :=
  ⟨rfl, rfl, expiry_transition_amended.1 oracle0 allocPending recExpired rfl rfl⟩

/-! ## Claim C8: independence of success side effects -/

/-- Claim C8: on every success transition, whatever sends fail, the trace
persists state first, attempts the requester card exactly once, attempts the
broadcast forward exactly once, and persists again for archiving — failures
of one destination never suppress the other or the persistence, and nothing
is retried. -/
theorem success_sideeffects :
    ∀ (o : SendOracle) (alloc : Alloc) (e : JVal) (a : Alloc) (tr : List Act),
      evalEntry o alloc e = .terminal a tr → a.status = "success" →
        tr.head? = some Act.persist ∧ tr.count Act.persist = 2 ∧
        tr.count Act.sendUserCard = 1 ∧ tr.count Act.sendFwd = 1 := by
  intro o alloc e a tr h hs
  unfold evalEntry at h
  cases hm : matchedB alloc.digits e with
  | false => simp [hm] at h
  | true =>
      rw [hm] at h
      simp only [if_true] at h
      cases hc : (optTruthy (entry_otp e) && otpFalsy alloc.otp) with
      | true =>
          rw [hc] at h
          simp only [if_true] at h
          injection h with hA hT
          subst hT
          obtain ⟨fc, ff, fo, fw, fe⟩ := o
          generalize (!(entry_msg e == "")) = b
          cases b <;> cases fc <;> cases ff <;> exact ⟨rfl, rfl, rfl, rfl⟩
      | false =>
          rw [hc] at h
          simp only [Bool.false_eq_true, if_false] at h
          cases hpe : provider_expired alloc.digits e with
          | false => rw [hpe] at h; simp at h
          | true =>
              rw [hpe] at h
              simp only [if_true] at h
              injection h with hA hT
              rw [← hA] at hs
              simp at hs

/-- Witness for the C8 theorem: a success transition where the requester
card send fails still attempts the broadcast forward once. -/
theorem success_sideeffects_witness :
    ({ allocExpired with otp := some "552910", status := "success" } : Alloc).status
      = "success" ∧
    ((successTrace { oracle0 with failCard := true } true).head? = some Act.persist ∧
      (successTrace { oracle0 with failCard := true } true).count Act.persist = 2 ∧
      (successTrace { oracle0 with failCard := true } true).count Act.sendUserCard = 1 ∧
      (successTrace { oracle0 with failCard := true } true).count Act.sendFwd = 1) :=
  ⟨rfl, success_sideeffects { oracle0 with failCard := true } allocExpired recWithOtp
    ({ allocExpired with otp := some "552910", status := "success" })
    (successTrace { oracle0 with failCard := true } true) rfl rfl⟩

/-! ## Lemmas for the pretty-number formatter -/

theorem toList_mk (l : List Char) : (String.mk l).toList = l := rfl

theorem toList_append (s t : String) : (s ++ t).toList = s.toList ++ t.toList := rfl

theorem digits_only_eq (s : String) :
    digits_only s = String.mk (s.toList.filter Char.isDigit) := by
  unfold digits_only filterDigits
  split_ifs with h
  · have hs : s = "" := by simpa using h
    subst hs
    rfl
  · rfl

theorem pyspace_not_digit (c : Char) (h : isPySpace c = true) : c.isDigit = false := by
  unfold isPySpace at h
  simp only [Bool.or_eq_true, beq_iff_eq] at h
  rcases h with ((((h | h) | h) | h) | h) | h <;> subst h <;> rfl

theorem filter_digits_dropWhile (l : List Char) :
    (l.dropWhile isPySpace).filter Char.isDigit = l.filter Char.isDigit := by
  conv_rhs => rw [← List.takeWhile_append_dropWhile isPySpace l]
  rw [List.filter_append]
  have h : (l.takeWhile isPySpace).filter Char.isDigit = [] := by
    rw [List.filter_eq_nil_iff]
    intro a ha
    simp [pyspace_not_digit a (List.mem_takeWhile_imp ha)]
  rw [h, List.nil_append]

theorem filter_digits_pyStrip (s : String) :
    (pyStrip s).toList.filter Char.isDigit = s.toList.filter Char.isDigit := by
  have h0 : (pyStrip s).toList =
      ((s.toList.dropWhile isPySpace).reverse.dropWhile isPySpace).reverse := rfl
  rw [h0, List.filter_reverse, filter_digits_dropWhile, List.filter_reverse,
    List.reverse_reverse, filter_digits_dropWhile]

theorem dropWhile_append_last {p : Char → Bool} {a : Char} (hpa : p a = false) :
    ∀ l : List Char, ∃ s, (l ++ [a]).dropWhile p = s ++ [a]
  | [] => ⟨[], by simp [List.dropWhile_cons, hpa]⟩
  | b :: l => by
      cases hb : p b with
      | true =>
          obtain ⟨s, hs⟩ := dropWhile_append_last hpa l
          exact ⟨s, by simp [List.dropWhile_cons, hb, hs]⟩
      | false => exact ⟨b :: l, by simp [List.dropWhile_cons, hb]⟩

theorem pyStrip_head_plus (s : String) (h : s.toList.head? = some '+') :
    (pyStrip s).toList.head? = some '+' := by
  obtain ⟨t, ht⟩ := List.head?_eq_some_iff.mp h
  have hplus : isPySpace '+' = false := rfl
  have h1 : s.toList.dropWhile isPySpace = '+' :: t := by
    rw [ht]
    simp [List.dropWhile_cons, hplus]
  have h0 : (pyStrip s).toList =
      ((s.toList.dropWhile isPySpace).reverse.dropWhile isPySpace).reverse := rfl
  rw [h0, h1, List.reverse_cons]
  obtain ⟨u, hu⟩ := dropWhile_append_last hplus t.reverse
  rw [hu, List.reverse_append]
  rfl

theorem joinWith_filter_digits : ∀ gs : List String,
    (∀ g ∈ gs, g.toList.all Char.isDigit = true) →
    (joinWith " " gs).toList.filter Char.isDigit = (gs.map String.toList).flatten
  | [], _ => rfl
  | [g], h => by
      have hall := h g (by simp)
      simp only [joinWith, List.map_cons, List.map_nil, List.flatten_cons, List.flatten_nil,
        List.append_nil]
      exact List.filter_eq_self.mpr (fun a ha => List.all_eq_true.mp hall a ha)
  | g :: g' :: rest, h => by
      have ih := joinWith_filter_digits (g' :: rest)
        (fun x hx => h x (List.mem_cons_of_mem _ hx))
      have hallg := h g (List.mem_cons_self _ _)
      show ((g ++ " " ++ joinWith " " (g' :: rest)).toList.filter Char.isDigit) = _
      rw [toList_append, toList_append, List.filter_append, List.filter_append]
      rw [List.filter_eq_self.mpr (fun a ha => List.all_eq_true.mp hallg a ha)]
      rw [ih]
      have hsp : ((" " : String).toList.filter Char.isDigit) = [] := rfl
      rw [hsp]
      simp

theorem groupLoop_spec : ∀ (fuel : Nat) (d : List Char) (acc : List String),
    d.length ≤ fuel →
    ∃ gs : List String,
      groupLoop fuel d acc = gs ++ acc ∧
      (gs.map String.toList).flatten = d ∧
      (∀ g ∈ gs, 1 ≤ g.length ∧ g.length ≤ 3) ∧
      (∀ g ∈ gs.tail, g.length = 3) ∧
      (gs = [] ↔ d = []) := by
  intro fuel
  induction fuel with
  | zero =>
      intro d acc h
      have hd : d = [] := List.eq_nil_of_length_eq_zero (Nat.le_zero.mp h)
      subst hd
      exact ⟨[], rfl, rfl, by simp, by simp, by simp⟩
  | succ fuel ih =>
      intro d acc h
      by_cases hd : d = []
      · subst hd
        refine ⟨[], ?_, rfl, by simp, by simp, by simp⟩
        simp [groupLoop]
      · have hne : d.isEmpty = false := by simp [hd]
        have hpos : 0 < d.length := List.length_pos.mpr hd
        have hstep : groupLoop (fuel + 1) d acc =
            groupLoop fuel (d.take (d.length - 3))
              (String.mk (d.drop (d.length - 3)) :: acc) := by
          simp [groupLoop, hne]
        have hlen : (d.take (d.length - 3)).length ≤ fuel := by
          rw [List.length_take, Nat.min_eq_left (Nat.sub_le _ _)]
          omega
        obtain ⟨gs', hgl, hjoin, h13, ht3, hemp⟩ :=
          ih (d.take (d.length - 3)) (String.mk (d.drop (d.length - 3)) :: acc) hlen
        refine ⟨gs' ++ [String.mk (d.drop (d.length - 3))], ?_, ?_, ?_, ?_, ?_⟩
        · rw [hstep, hgl, List.append_assoc]
          rfl
        · rw [List.map_append, List.flatten_append, hjoin]
          simp only [List.map_cons, List.map_nil, List.flatten_cons, List.flatten_nil,
            List.append_nil, toList_mk]
          exact List.take_append_drop _ d
        · intro g hg
          rcases List.mem_append.mp hg with hg | hg
          · exact h13 g hg
          · have hgx : g = String.mk (d.drop (d.length - 3)) := by simpa using hg
            subst hgx
            have hlen3 : (String.mk (d.drop (d.length - 3))).length
                = d.length - (d.length - 3) := by
              show (d.drop (d.length - 3)).length = _
              exact List.length_drop _ _
            constructor
            · rw [hlen3]; omega
            · rw [hlen3]; omega
        · intro g hg
          rcases gs' with _ | ⟨g0, gs''⟩
          · simp at hg
          · have hg' : g ∈ gs'' ++ [String.mk (d.drop (d.length - 3))] := by
              simpa using hg
            rcases List.mem_append.mp hg' with hmem | hmem
            · exact ht3 g hmem
            · have hgx : g = String.mk (d.drop (d.length - 3)) := by simpa using hmem
              subst hgx
              have htake : ¬ d.take (d.length - 3) = [] := by
                intro hcon
                have hcon2 := hemp.mpr hcon
                cases hcon2
              have hlt : 0 < d.length - 3 := by
                by_contra hcon
                push_neg at hcon
                have h30 : d.length - 3 = 0 := Nat.le_zero.mp hcon
                exact htake (by rw [h30]; rfl)
              show (d.drop (d.length - 3)).length = 3
              rw [List.length_drop]
              omega
        · constructor
          · intro hcon; exact absurd hcon (by simp)
          · intro hcon; exact absurd hcon hd

/-- Digit groups of a digit list together with the properties the formatter
needs. -/
theorem groups_of (dl : List Char) (hdl : ∀ c ∈ dl, c.isDigit = true) :
    ∃ gs : List String,
      groupLoop dl.length dl [] = gs ∧
      (gs.map String.toList).flatten = dl ∧
      (∀ g ∈ gs, 1 ≤ g.length ∧ g.length ≤ 3) ∧
      (∀ g ∈ gs.tail, g.length = 3) ∧
      (joinWith " " gs).toList.filter Char.isDigit = dl := by
  obtain ⟨gs, h1, h2, h3, h4, h5⟩ := groupLoop_spec dl.length dl [] (Nat.le_refl _)
  have hall : ∀ g ∈ gs, g.toList.all Char.isDigit = true := by
    intro g hg
    rw [List.all_eq_true]
    intro c hc
    have hcd : c ∈ dl := by
      rw [← h2]
      exact List.mem_flatten.mpr ⟨g.toList, List.mem_map_of_mem _ hg, hc⟩
    exact hdl c hcd
  refine ⟨gs, by simpa using h1, h2, h3, h4, ?_⟩
  rw [joinWith_filter_digits gs hall, h2]

/-- The branch structure of `format_pretty_number` on a non-empty input: the
output is a plus-or-empty marker followed by the space-joined digit groups of
the stripped, de-plussed input, whose digit list equals the digit filter of
the whole input; the marker is the plus exactly kept from the input head. -/
theorem format_branch (n : String) (hn : ¬ n = "") :
    ∃ p s1, (p = "" ∨ p = "+") ∧
      format_pretty_number n = p ++ joinWith " "
        (groupLoop (digits_only s1).toList.length (digits_only s1).toList []) ∧
      (digits_only s1).toList = n.toList.filter Char.isDigit ∧
      (n.toList.head? = some '+' → p = "+") := by
  by_cases hp : (pyStrip n).toList.head? = some '+'
  · refine ⟨"+", String.mk (pyStrip n).toList.tail, Or.inr rfl, ?_, ?_, fun _ => rfl⟩
    · have hpb : ((pyStrip n).toList.head? == some '+') = true := by simpa using hp
      unfold format_pretty_number
      rw [if_neg (by simpa using hn)]
      simp only [hpb, if_true]
    · obtain ⟨t, ht⟩ := List.head?_eq_some_iff.mp hp
      rw [digits_only_eq, toList_mk, toList_mk, ht]
      show t.filter Char.isDigit = _
      have hnd : Char.isDigit '+' = false := rfl
      have h2 : t.filter Char.isDigit = ('+' :: t).filter Char.isDigit := by
        rw [List.filter_cons_of_neg (by simp [hnd])]
      rw [h2, ← ht, filter_digits_pyStrip]
  · refine ⟨"", pyStrip n, Or.inl rfl, ?_, ?_, ?_⟩
    · have hpb : ((pyStrip n).toList.head? == some '+') = false := by
        simpa using hp
      unfold format_pretty_number
      rw [if_neg (by simpa using hn)]
      simp only [hpb, Bool.false_eq_true, if_false]
    · rw [digits_only_eq, toList_mk, filter_digits_pyStrip]
    · intro hh
      exact absurd (pyStrip_head_plus n hh) hp

/-! ## Claim C10: the pretty-number formatter -/

/-- Claim C10: the formatter preserves digit content, keeps a leading plus as
the first output character, and renders the digits as blocks of three built
from the right, separated by single spaces (only the leftmost block may be
shorter). -/
theorem pretty_number_ok : ∀ n : String,
    digits_only (format_pretty_number n) = digits_only n
    ∧ (n.toList.head? = some '+' → (format_pretty_number n).toList.head? = some '+')
    ∧ (∃ p gs, (p = "" ∨ p = "+") ∧
        format_pretty_number n = p ++ joinWith " " gs ∧
        (gs.map String.toList).flatten = (digits_only n).toList ∧
        (∀ g ∈ gs, 1 ≤ g.length ∧ g.length ≤ 3) ∧
        (∀ g ∈ gs.tail, g.length = 3)) := by
  intro n
  by_cases hn : n = ""
  · subst hn
    refine ⟨rfl, fun h => absurd h (by decide), "", [], Or.inl rfl, rfl, rfl, ?_, ?_⟩
    · intro g hg; cases hg
    · intro g hg; cases hg
  · obtain ⟨p, s1, hpor, hfmt, hdig, hplus⟩ := format_branch n hn
    have hdl : ∀ c ∈ (digits_only s1).toList, c.isDigit = true := by
      intro c hc
      rw [hdig] at hc
      exact List.of_mem_filter hc
    obtain ⟨gs, hgl, hflat, h13, ht3, hjf⟩ := groups_of (digits_only s1).toList hdl
    have hfmt' : format_pretty_number n = p ++ joinWith " " gs := by rw [hfmt, hgl]
    refine ⟨?_, ?_, p, gs, hpor, hfmt', ?_, h13, ht3⟩
    · rw [digits_only_eq (format_pretty_number n), digits_only_eq n]
      rw [hfmt', toList_append, List.filter_append, hjf, hdig]
      rcases hpor with h | h
      · subst h; rfl
      · subst h
        have h0 : (("+" : String).toList.filter Char.isDigit) = [] := rfl
        rw [h0]
        rfl
    · intro hh
      have hp2 : p = "+" := hplus hh
      subst hp2
      rw [hfmt', toList_append]
      rfl
    · rw [hflat, hdig, digits_only_eq n]
      rfl

/-- Witness for the C10 theorem at a concrete input with a leading plus. -/
theorem pretty_number_ok_witness :
    ("+261347435123" : String).toList.head? = some '+' ∧
    digits_only (format_pretty_number "+261347435123") = digits_only "+261347435123" ∧
    (format_pretty_number "+261347435123").toList.head? = some '+' := by
  refine ⟨rfl, (pretty_number_ok "+261347435123").1,
    (pretty_number_ok "+261347435123").2.1 rfl⟩

end Bot
